import Mathlib

/-
  Verification of the cpp-iterators library (src/iterator/iterators.h and
  src/iterator/iterator_utilities.h) against its specification.

  The development has two layers:

  1. A compile-time layer: the library's capability / mutability algebra is
     template metaprogramming.  A C++ collection binding is modelled by the
     record `CppColl` recording the three compile-time facts the library
     inspects: whether the type exposes rbegin (has_rbegin, iterators.h:56-68),
     whether the binding is const in any way (is_const_type, iterators.h:302-309),
     and whether dereferencing the collection's own non-const iterator already
     yields a const value (the second disjunct of is_const_collection,
     iterators.h:314-319).  Each adaptor constructor is modelled by the class
     choice its enable_if dispatch makes, and each produced class by whether it
     declares rbegin members and which iterator typedef it selects.

  2. A run-time layer: cursors are modelled positionally.  An iterator into a
     container is represented either by a numeric position (JoinedIterator,
     where operator== compares positions of both components) or by the suffix
     of elements from the current position to the end (ChainedIterator,
     FilterIterator, EnumeratedIterator, MappedIterator, where only the
     operations ++, *, and comparison against the end sentinel are used by a
     traversal; an empty suffix is exactly "cursor == end").  Traversals are
     run with explicit fuel, mirroring a for-loop that stops when the cursor
     compares equal to the end cursor.
-/

set_option linter.unusedVariables false

namespace iterators

/-- A C++ collection binding, as seen by the library's type-level classifiers.
`hasRbegin`: the collection type exposes a reverse-traversal operation rbegin().
`constBinding`: the binding T is const in any of the forms matched by
details::is_const_type (iterators.h:302-309).
`iterDerefConst`: dereferencing the collection's own non-const iterator
(remove_cvref_t T::iterator) yields a const value, as tested by the second
disjunct of details::is_const_collection (iterators.h:319). -/
structure CppColl where
  hasRbegin : Bool
  constBinding : Bool
  iterDerefConst : Bool
deriving DecidableEq, Repr

namespace details

/-- iterators.h:56-65: SFINAE test for the presence of rbegin() on the type. -/
def has_rbegin (t : CppColl) : Bool := t.hasRbegin

/-- iterators.h:68: is_bidirectional_collection is has_rbegin. -/
def is_bidirectional_collection (t : CppColl) : Bool := has_rbegin t

/-- iterators.h:70-71: conjunction of the two is_bidirectional_collection tests. -/
def are_bidirectional_collections (t1 t2 : CppColl) : Bool :=
  is_bidirectional_collection t1 && is_bidirectional_collection t2

/-- iterators.h:74-75: both the outer collection and its value_type (the inner
collection, passed here explicitly) are bidirectional. -/
def is_nested_bidirectional_collection (outerT innerT : CppColl) : Bool :=
  are_bidirectional_collections outerT innerT

/-- iterators.h:302-309: the binding is const in any way. -/
def is_const_type (t : CppColl) : Bool := t.constBinding

/-- iterators.h:312: T1 or T2 is const. -/
def is_any_const (t1 t2 : CppColl) : Bool := is_const_type t1 || is_const_type t2

/-- iterators.h:314-319: the collection is considered const if the binding is
const, or if its own non-const iterator dereferences to a const value. -/
def is_const_collection (t : CppColl) : Bool := is_const_type t || t.iterDerefConst

end details

/-- The class templates an adaptor constructor can produce
(iterators.h forward declarations, lines 12-29). -/
inductive ViewClass where
  | enumerated
  | forwardEnumerated
  | iterated
  | forwardIterated
  | chained
  | forwardChained
  | referenced
  | forwardReferenced
  | referencedUnique
  | forwardReferencedUnique
  | reversed
  | joined
  | forwardJoined
  | mapped
  | forwardMapped
  | filtered
  | forwardFiltered
deriving DecidableEq, Repr

/-- Which produced classes declare rbegin/rend members.  Read off the class
bodies: Enumerated (iterators.h:449-466), Iterated (503-506), Chained
(632-648), Referenced (715-727), ReferencedUnique (793-805), Reversed
(824-827), Joined (918-936), Mapped (1006-1022), Filtered (1097-1111) declare
them; none of the Forward* base classes do. -/
def ViewClass.hasRbegin : ViewClass → Bool
  | .enumerated => true
  | .forwardEnumerated => false
  | .iterated => true
  | .forwardIterated => false
  | .chained => true
  | .forwardChained => false
  | .referenced => true
  | .forwardReferenced => false
  | .referencedUnique => true
  | .forwardReferencedUnique => false
  | .reversed => true
  | .joined => true
  | .forwardJoined => false
  | .mapped => true
  | .forwardMapped => false
  | .filtered => true
  | .forwardFiltered => false

/-- iterators.h:96-103: Enumerate dispatches on is_bidirectional_collection. -/
def Enumerate (t : CppColl) : ViewClass :=
  if details.is_bidirectional_collection t then .enumerated else .forwardEnumerated

/-- iterators.h:128-135: Iterate dispatches on is_bidirectional_collection. -/
def Iterate (t : CppColl) : ViewClass :=
  if details.is_bidirectional_collection t then .iterated else .forwardIterated

/-- iterators.h:146-154: Chain dispatches on is_nested_bidirectional_collection
(the inner collection type is the outer type's value_type, passed explicitly). -/
def Chain (outerT innerT : CppColl) : ViewClass :=
  if details.is_nested_bidirectional_collection outerT innerT then .chained else .forwardChained

/-- iterators.h:167-198: AsReferences dispatches on is_unique_pointer_collection
(passed explicitly as uniquePtr) and on is_bidirectional_collection. -/
def AsReferences (t : CppColl) (uniquePtr : Bool) : ViewClass :=
  if uniquePtr then
    if details.is_bidirectional_collection t then .referencedUnique else .forwardReferencedUnique
  else
    if details.is_bidirectional_collection t then .referenced else .forwardReferenced

/-- iterators.h:208-212: Reverse always produces Reversed; the static_assert
requires a bidirectional source at compile time. -/
def Reverse (t : CppColl) : ViewClass := .reversed

/-- iterators.h:225-234: Join dispatches on are_bidirectional_collections. -/
def Join (t1 t2 : CppColl) : ViewClass :=
  if details.are_bidirectional_collections t1 t2 then .joined else .forwardJoined

/-- iterators.h:247-256: Map dispatches on is_bidirectional_collection
(the mapping function plays no role in the dispatch). -/
def Map (t : CppColl) : ViewClass :=
  if details.is_bidirectional_collection t then .mapped else .forwardMapped

/-- iterators.h:269-278: Filter dispatches on is_bidirectional_collection. -/
def Filter (t : CppColl) : ViewClass :=
  if details.is_bidirectional_collection t then .filtered else .forwardFiltered

/-
  Mutability classification of the produced views: for each view class, whether
  its non-const access path (begin() on a non-const view, returning the
  `iterator` typedef) yields only read-only access to the stored elements.
  The selected source iterator propagates its own dereference constness
  through the adaptor (auto-deduced return types), while a const_iterator of
  a standard collection always dereferences to a const value.
-/

/-- iterators.h:325-327 as used by Iterated (line 482): the iterator typedef is
T::const_iterator when the binding is const (read-only access), otherwise
T::iterator, whose dereference constness is the collection's own. -/
def iteratedReadOnly (t : CppColl) : Bool :=
  if details.is_const_type t then true else t.iterDerefConst

/-- iterators.h:410-412: ForwardEnumerated selects const_iterator (whose Item
only offers const Value() access) precisely when is_const_collection holds. -/
def enumeratedReadOnly (t : CppColl) : Bool :=
  if details.is_const_collection t then true else false

/-- iterators.h:1065-1066: Filtered selects its const_iterator on is_const_type
only; the non-const path is FilterIterator over T::iterator, whose
operator* returns auto& of the source dereference (line 1031). -/
def filteredReadOnly (t : CppColl) : Bool :=
  if details.is_const_type t then true else t.iterDerefConst

/-- iterators.h:686-689: ForwardReferenced selects its const_iterator on
is_const_type only; the non-const path is
ReferencedIterator of collection_iterator and value_type, whose operator*
(line 666) has the fixed return type value_type&, so the pointee access stays
mutable even when the source iterator dereferences to a const pointer. -/
def referencedReadOnly (t : CppColl) : Bool :=
  if details.is_const_type t then true else false

/-- iterators.h:763-766: same structure as ForwardReferenced; operator*
(lines 739-743) returns value_type& via unique_pointer.get(). -/
def referencedUniqueReadOnly (t : CppColl) : Bool :=
  if details.is_const_type t then true else false

/-- iterators.h:575-586: ForwardChained selects both component iterators on
is_const_type of the outer binding only.  On the non-const path the element
access is auto& of the inner collection's own iterator dereference (line 525);
the outer element's constness is stripped by the const_cast at lines 544-545. -/
def chainedReadOnly (outerT innerT : CppColl) : Bool :=
  if details.is_const_type outerT then true else innerT.iterDerefConst

/-- iterators.h:877-878: ForwardJoined selects its const_iterator on
is_any_const; on the non-const path JoinedIterator's operator* (lines 837-841)
returns auto& deduced from the two source dereferences, which must agree, so
the instantiation is only well-formed when both collections have the same
element dereference constness. -/
def joinedReadOnly (t1 t2 : CppColl) : Bool :=
  if details.is_any_const t1 t2 then true else t1.iterDerefConst

/-- Modelled from the spec (section 4.2 and the C2 claim text), for the
refinement comparison: a view is ReadOnly iff the binding it was given is
read-only, or dereferencing the source's own mutable traversal already yields
a read-only value. -/
def specReadOnlyView (t : CppColl) : Bool := t.constBinding || t.iterDerefConst

/-- How an operator* declaration hands out its result: as a plain value, as a
const reference, or as a mutable reference. -/
inductive AccessKind where
  | byValue
  | byConstRef
  | byMutableRef
deriving DecidableEq, Repr

/-- iterators.h:944: MappedIterator has a single operator*, declared auto
(return by value), shared by const_iterator and iterator instantiations. -/
def mappedIteratorAccess : AccessKind := .byValue

/-- iterator_utilities.h:721-723: the mutable access path of Mapped::_Iterator,
auto operator*, returns the computed value by value. -/
def utilitiesMappedMutableAccess : AccessKind := .byValue

/-- iterator_utilities.h:725-727: the read-only access path of
Mapped::_Iterator is declared const auto& and returns a reference bound to the
temporary produced by the mapping function. -/
def utilitiesMappedConstAccess : AccessKind := .byConstRef

/-
  Reverse view (C3).  A bidirectional collection is modelled by its two
  traversal orders: fwdElems is the order begin..end produces, bwdElems the
  order rbegin..rend produces.
-/

/-- A bidirectional collection modelled by its two traversal orders. -/
structure BidirColl (α : Type) where
  fwdElems : List α
  bwdElems : List α
deriving DecidableEq, Repr

/-- A standard container: reverse traversal visits the elements of forward
traversal in reverse order. -/
def stdColl {α : Type} (xs : List α) : BidirColl α := ⟨xs, xs.reverse⟩

/-- iterators.h:808-831: Reversed maps begin to rbegin of the source, end to
rend, rbegin to begin and rend to end, so its forward order is the source's
backward order and vice versa. -/
def Reversed {α : Type} (c : BidirColl α) : BidirColl α := ⟨c.bwdElems, c.fwdElems⟩

/-
  JoinedIterator (iterators.h:833-858), for C4 and C9.  The two component
  iterators are positions: a state (i, j) holds position i in the first range
  (whose end position is the range's length) and position j in the second.
-/

/-- iterators.h:837-841: operator* returns the first range's current element
while first_ has not reached first_end_, and the second range's current
element afterwards.  Dereferencing with both components at their ends is the
undefined end-dereference (none). -/
def joinedDeref {α : Type} (xs ys : List α) (s : Nat × Nat) : Option α :=
  if s.1 ≠ xs.length then xs.get? s.1 else ys.get? s.2

/-- iterators.h:843-848: operator++ advances within the first range until it is
exhausted, then advances the second. -/
def joinedInc {α : Type} (xs ys : List α) (s : Nat × Nat) : Nat × Nat :=
  if s.1 ≠ xs.length then (s.1 + 1, s.2) else (s.1, s.2 + 1)

/-- iterators.h:850: operator== compares the positions of both components. -/
def joinedEq (a b : Nat × Nat) : Bool := a.1 == b.1 && a.2 == b.2

/-- A for-loop over the joined view: collect operator* results, advancing with
operator++, until the cursor compares equal (operator==) to the end cursor
(both components at their end positions, iterators.h:884).  The fuel bounds
the number of loop iterations. -/
def joinedRun {α : Type} (xs ys : List α) : Nat → Nat × Nat → List (Option α)
  | 0, _ => []
  | fuel + 1, s =>
    if joinedEq s (xs.length, ys.length) then []
    else joinedDeref xs ys s :: joinedRun xs ys fuel (joinedInc xs ys s)

/-- Forward traversal of Joined: begin is both components at position 0
(iterators.h:882). -/
def joinedForwardList {α : Type} (xs ys : List α) : List (Option α) :=
  joinedRun xs ys (xs.length + ys.length + 1) (0, 0)

/-- Reverse traversal of Joined (iterators.h:918-926): rbegin is a
JoinedIterator whose first component ranges over the second collection in
reverse and whose second component ranges over the first collection in
reverse. -/
def joinedReverseList {α : Type} (xs ys : List α) : List (Option α) :=
  joinedRun ys.reverse xs.reverse (ys.reverse.length + xs.reverse.length + 1) (0, 0)

/-- The cursor obtained from begin by k applications of operator++. -/
def joinedStateAt {α : Type} (xs ys : List α) : Nat → Nat × Nat
  | 0 => (0, 0)
  | k + 1 => joinedInc xs ys (joinedStateAt xs ys k)

/-
  ChainedIterator (iterators.h:509-568), for C5 and C10.  The outer iterator is
  modelled by the suffix of inner collections from its current position
  (IsAtEnd, line 537, is emptiness of that suffix); the inner iterator by the
  suffix of the current inner collection from its current position
  (IsAtEndOfInnerCollection, line 539, is its emptiness).  A state pairs the
  two suffixes.
-/

/-- iterators.h:550-560: while the outer iterator is not at its end and the
inner iterator is at the end of its collection, advance the outer iterator and
re-initialize the inner iterators from the new outer element
(InitializeInnerCollection runs only when the outer end has not been reached;
otherwise the stale inner iterator is carried along, never observed). -/
def chainedSkipEmpty {α : Type} : List (List α) → List α → List (List α) × List α
  | [], inn => ([], inn)
  | os :: oss, [] =>
    match oss with
    | [] => ([], [])
    | ys :: rest => chainedSkipEmpty (ys :: rest) ys
  | os :: oss, a :: inn2 => (os :: oss, a :: inn2)

/-- iterators.h:514-524: the constructor initializes the inner iterators from
the first outer element (if any; otherwise they stay default-initialized) and
then skips empty inner collections. -/
def chainedBegin {α : Type} (xss : List (List α)) : List (List α) × List α :=
  match xss with
  | [] => chainedSkipEmpty [] []
  | ys :: rest => chainedSkipEmpty (ys :: rest) ys

/-- iterators.h:537: the cursor is at the end when the outer iterator reached
the outer end. -/
def chainedIsAtEnd {α : Type} (s : List (List α) × List α) : Bool := s.1.isEmpty

/-- iterators.h:525: operator* dereferences the inner iterator. -/
def chainedDeref {α : Type} (s : List (List α) × List α) : Option α := s.2.head?

/-- iterators.h:527-530: operator++ advances the inner iterator, then skips
empty inner collections. -/
def chainedInc {α : Type} (s : List (List α) × List α) : List (List α) × List α :=
  chainedSkipEmpty s.1 (s.2.drop 1)

/-- iterators.h:532: operator== compares only whether the two cursors are at
the end. -/
def chainedEq {α : Type} (a b : List (List α) × List α) : Bool :=
  chainedIsAtEnd a == chainedIsAtEnd b

/-- A for-loop over the chained view: collect operator* results, advancing with
operator++, until the cursor compares equal (operator==, hence IsAtEnd) to the
end cursor (whose outer iterator is at the outer end, iterators.h:591). -/
def chainedRun {α : Type} : Nat → List (List α) × List α → List (Option α)
  | 0, _ => []
  | fuel + 1, s =>
    if chainedIsAtEnd s then []
    else chainedDeref s :: chainedRun fuel (chainedInc s)

/-- Forward traversal of the chained view from begin. -/
def chainedToList {α : Type} (xss : List (List α)) : List (Option α) :=
  chainedRun (xss.flatten.length + 1) (chainedBegin xss)

/-
  FilterIterator (iterators.h:1025-1054), for C6.  The underlying iterator is
  modelled by the suffix of source elements from its current position; the end
  sentinel is the empty suffix (IsEnd, line 1042).
-/

/-- iterators.h:1046-1049: advance the underlying iterator while it is not at
the end and the current element does not satisfy the filter. -/
def skipFilteredEntries {α : Type} (filter : α → Bool) : List α → List α
  | [] => []
  | x :: rest => if !filter x then skipFilteredEntries filter rest else x :: rest

/-- iterators.h:1027-1029: the constructor skips filtered-out entries, so the
begin cursor of Filtered (iterators.h:1071) starts on the first match. -/
def filteredBegin {α : Type} (filter : α → Bool) (xs : List α) : List α :=
  skipFilteredEntries filter xs

/-- A for-loop over the filtered view: collect operator* results (line 1031:
the underlying dereference), advancing with operator++ (advance then skip,
lines 1033-1036), until the cursor compares equal to the end cursor (operator==
compares underlying positions, line 1038, so the loop stops on the empty
suffix). -/
def filteredRun {α : Type} (filter : α → Bool) : Nat → List α → List (Option α)
  | 0, _ => []
  | _ + 1, [] => []
  | fuel + 1, x :: rest =>
    (x :: rest).head? :: filteredRun filter fuel (skipFilteredEntries filter rest)

/-- Forward traversal of the filtered view from begin. -/
def filteredToList {α : Type} (filter : α → Bool) (xs : List α) : List (Option α) :=
  filteredRun filter (xs.length + 1) (filteredBegin filter xs)

/-
  EnumeratedIterator (iterators.h:356-398), for C7.  The underlying iterator
  ranges over storage slots of the source collection; a slot is modelled by its
  index in the source's forward order, so that the address stored in the Item
  (a pointer into the collection, line 388) is a storage index.  The iterator
  is modelled by the suffix of remaining slot indices, the running position
  counter, and the cached Item.
-/

/-- The cached return-value struct: Position() and the pointer held for
Value(), modelled as a storage index (none models the null pointer of the
default-constructed Item, iterators.h:343). -/
structure EnumItem where
  pos : Int
  ref : Option Nat
deriving DecidableEq, Repr

/-- iterators.h:386-389: SetItem overwrites the cached item from the current
position counter and the address of the current element, but only when the
underlying iterator has not reached its end. -/
def enumSetItem (rem : List Nat) (position : Int) (old : EnumItem) : EnumItem :=
  match rem.head? with
  | some idx => ⟨position, some idx⟩
  | none => old

/-- The EnumeratedIterator state: remaining storage slots, position counter,
cached item. -/
structure EnumSt where
  rem : List Nat
  position : Int
  item : EnumItem
deriving DecidableEq, Repr

/-- iterators.h:361-364: the constructor stores the range and position and runs
SetItem once (the cached item starts as the default Item). -/
def enumMk (inds : List Nat) (pos0 : Int) : EnumSt :=
  ⟨inds, pos0, enumSetItem inds pos0 ⟨0, none⟩⟩

/-- iterators.h:376-380: operator++ advances the underlying iterator, adds
the position delta, and re-runs SetItem. -/
def enumInc (delta : Int) (s : EnumSt) : EnumSt :=
  ⟨s.rem.drop 1, s.position + delta, enumSetItem (s.rem.drop 1) (s.position + delta) s.item⟩

/-- A for-loop over the enumerated view: collect the cached items returned by
operator* (iterators.h:366), advancing with operator++, until the underlying
iterator compares equal to its end (operator==, line 382, compares underlying
iterators only). -/
def enumRun (delta : Int) : Nat → EnumSt → List EnumItem
  | 0, _ => []
  | fuel + 1, s =>
    match s.rem with
    | [] => []
    | _ :: _ => s.item :: enumRun delta fuel (enumInc delta s)

/-- Forward traversal of ForwardEnumerated over a collection of n elements
(iterators.h:424): the underlying iterator visits storage slots 0..n-1, the
position starts at 0 with kIncrement = 1. -/
def enumForwardItems {α : Type} (xs : List α) : List EnumItem :=
  enumRun 1 (xs.length + 1) (enumMk (List.range xs.length) 0)

/-- Reverse traversal of Enumerated (iterators.h:459-462): the underlying
reverse iterator visits storage slots n-1..0, the position starts at
MaxPosition() = size - 1 (line 469) with kDecrement = -1. -/
def enumReverseItems {α : Type} (xs : List α) : List EnumItem :=
  enumRun (-1) (xs.length + 1) (enumMk (List.range xs.length).reverse ((xs.length : Int) - 1))

/-- Reading through an Item's Value() reference: the value stored at the
referenced slot of the source collection (null pointer yields none). -/
def enumReadThrough {α : Type} (xs : List α) (it : EnumItem) : Option α :=
  match it.ref with
  | some idx => xs.get? idx
  | none => none

/-- Writing through an Item's (non-const) Value() reference mutates the
referenced slot of the source collection. -/
def enumWriteThrough {α : Type} (xs : List α) (it : EnumItem) (v : α) : List α :=
  match it.ref with
  | some idx => xs.set idx v
  | none => xs

/-
  MappedIterator (iterators.h:939-955), for C8.  The underlying iterator is
  modelled by the suffix of source elements from its current position.
-/

/-- iterators.h:944: operator* returns mapping_function_ applied to the current
source element, by value. -/
def mappedDeref {α β : Type} (f : α → β) (s : List α) : Option β :=
  (s.head?).map f

/-- A for-loop over the mapped view: collect operator* results, advancing with
operator++ (line 946), until the cursor compares equal to the end cursor
(operator== compares underlying positions, line 948). -/
def mappedRun {α β : Type} (f : α → β) : List α → List (Option β)
  | [] => []
  | x :: rest => mappedDeref f (x :: rest) :: mappedRun f rest

/-- Proof helper: the elements a chained cursor still has to visit, namely the
rest of the current inner collection followed by the inner collections the
outer iterator has not reached yet. -/
def chainedRest {α : Type} (s : List (List α) × List α) : List α :=
  match s.1 with
  | [] => []
  | _ :: oss => s.2 ++ oss.flatten

/-- Proof helper: the items an enumerated traversal is expected to yield when
the underlying iterator still has to visit the given storage slots and the
position counter currently holds pos. -/
def enumItemsFrom (delta : Int) : List Nat → Int → List EnumItem
  | [], _ => []
  | i :: rest, pos => ⟨pos, some i⟩ :: enumItemsFrom delta rest (pos + delta)

/-
  Theorems.  Helper lemmas first, then one theorem per claim (with its witness
  or counterexample).
-/

theorem joinedRun_second {α : Type} (xs ys : List α) :
    ∀ (fuel j : Nat), j ≤ ys.length → ys.length - j < fuel →
      joinedRun xs ys fuel (xs.length, j) = (ys.drop j).map some := by
  intro fuel
  induction fuel with
  | zero => intro j hj h; omega
  | succ f ih =>
    intro j hj h
    by_cases hje : j = ys.length
    · subst hje
      simp [joinedRun, joinedEq, List.drop_length]
    · have hjlt : j < ys.length := lt_of_le_of_ne hj hje
      have hcond : joinedEq (xs.length, j) (xs.length, ys.length) = false := by
        simp [joinedEq, hje]
      rw [joinedRun, hcond]
      simp only [Bool.false_eq_true, if_false]
      have hderef : joinedDeref xs ys (xs.length, j) = some (ys[j]) := by
        simp [joinedDeref, List.get?_eq_getElem?, List.getElem?_eq_getElem hjlt]
      have hinc : joinedInc xs ys (xs.length, j) = (xs.length, j + 1) := by
        simp [joinedInc]
      rw [hderef, hinc, ih (j + 1) (by omega) (by omega),
        List.drop_eq_getElem_cons hjlt, List.map_cons]

theorem joinedRun_first {α : Type} (xs ys : List α) :
    ∀ (fuel i : Nat), i ≤ xs.length → xs.length - i + ys.length < fuel →
      joinedRun xs ys fuel (i, 0) = (xs.drop i ++ ys).map some := by
  intro fuel
  induction fuel with
  | zero => intro i hi h; omega
  | succ f ih =>
    intro i hi h
    by_cases hie : i = xs.length
    · subst hie
      rw [joinedRun_second xs ys (f + 1) 0 (by omega) (by omega)]
      simp [List.drop_length]
    · have hilt : i < xs.length := lt_of_le_of_ne hi hie
      have hcond : joinedEq (i, 0) (xs.length, ys.length) = false := by
        simp [joinedEq, hie]
      rw [joinedRun, hcond]
      simp only [Bool.false_eq_true, if_false]
      have hderef : joinedDeref xs ys (i, 0) = some (xs[i]) := by
        simp [joinedDeref, hie, List.get?_eq_getElem?, List.getElem?_eq_getElem hilt]
      have hinc : joinedInc xs ys (i, 0) = (i + 1, 0) := by
        simp [joinedInc, hie]
      rw [hderef, hinc, ih (i + 1) (by omega) (by omega),
        List.drop_eq_getElem_cons hilt, List.cons_append, List.map_cons]

/-- Claim C4: for all collections a and b with the same element type, forward
traversal of Join(a,b) yields exactly the elements of a in order followed by
the elements of b in order; and (when both are bidirectional) reverse
traversal yields the elements of b reversed followed by the elements of a
reversed, i.e. the reverse of the whole concatenated sequence. -/
theorem claim_C4 {α : Type} (xs ys : List α) :
    joinedForwardList xs ys = (xs ++ ys).map some ∧
    joinedReverseList xs ys = (ys.reverse ++ xs.reverse).map some := by
  constructor
  · rw [joinedForwardList, joinedRun_first xs ys (xs.length + ys.length + 1) 0
      (by omega) (by omega)]
    simp
  · rw [joinedReverseList,
      joinedRun_first ys.reverse xs.reverse
        (ys.reverse.length + xs.reverse.length + 1) 0 (by omega) (by omega)]
    simp

theorem joinedStateAt_spec {α : Type} (xs ys : List α) :
    ∀ k, k ≤ xs.length + ys.length →
      joinedStateAt xs ys k =
        if k ≤ xs.length then (k, 0) else (xs.length, k - xs.length) := by
  intro k
  induction k with
  | zero => intro h; simp [joinedStateAt]
  | succ k ih =>
    intro h
    rw [joinedStateAt, ih (by omega)]
    by_cases hk : k + 1 ≤ xs.length
    · rw [if_pos (by omega), if_pos hk]
      have hne : k ≠ xs.length := by omega
      simp [joinedInc, hne]
    · by_cases hk2 : k ≤ xs.length
      · have hke : k = xs.length := by omega
        subst hke
        rw [if_pos le_rfl, if_neg hk]
        simp [joinedInc, Nat.add_sub_cancel_left]
      · rw [if_neg hk2, if_neg (by omega)]
        simp [joinedInc, Prod.mk.injEq]
        omega

/-- Claim C9: two Join cursors over the same view compare equal if and only if
both their position within the first collection and their position within the
second collection match; along a traversal, cursors taken after different
numbers of increments from begin never compare equal, and every cursor
(including the one at the end-of-first/start-of-second transition) compares
equal to itself. -/
theorem claim_C9 :
    (∀ (a b : Nat × Nat), joinedEq a b = true ↔ (a.1 = b.1 ∧ a.2 = b.2)) ∧
    (∀ (α : Type) (xs ys : List α) (k1 k2 : Nat),
      k1 ≤ xs.length + ys.length → k2 ≤ xs.length + ys.length →
      (joinedEq (joinedStateAt xs ys k1) (joinedStateAt xs ys k2) = true ↔ k1 = k2)) := by
  constructor
  · intro a b
    simp [joinedEq]
  · intro α xs ys k1 k2 h1 h2
    rw [joinedStateAt_spec xs ys k1 h1, joinedStateAt_spec xs ys k2 h2]
    by_cases hk1 : k1 ≤ xs.length <;> by_cases hk2 : k2 ≤ xs.length <;>
      simp [hk1, hk2, joinedEq] <;> omega

/-- Witness for claim C9: at concrete inputs, the transition cursor (one
increment past the only element of the first collection) equals itself and
differs from the cursor one further increment along. -/
theorem claim_C9_witness :
    joinedEq (joinedStateAt ([10] : List Nat) [20, 30] 1)
        (joinedStateAt ([10] : List Nat) [20, 30] 1) = true ∧
    joinedEq (joinedStateAt ([10] : List Nat) [20, 30] 1)
        (joinedStateAt ([10] : List Nat) [20, 30] 2) ≠ true :=
  ⟨(claim_C9.2 Nat [10] [20, 30] 1 1 (by decide) (by decide)).mpr rfl,
   fun h => absurd ((claim_C9.2 Nat [10] [20, 30] 1 2 (by decide) (by decide)).mp h)
     (by decide)⟩

theorem chainedSkipEmpty_rest {α : Type} :
    ∀ (oss : List (List α)) (inn : List α),
      chainedRest (chainedSkipEmpty oss inn) = chainedRest (oss, inn) := by
  intro oss
  induction oss with
  | nil => intro inn; rfl
  | cons os oss ih =>
    intro inn
    match inn with
    | a :: inn2 => rfl
    | [] =>
      match oss with
      | [] => rfl
      | ys :: rest =>
        rw [chainedSkipEmpty, ih ys]
        simp [chainedRest]

theorem chainedSkipEmpty_stable {α : Type} :
    ∀ (oss : List (List α)) (inn : List α),
      (chainedSkipEmpty oss inn).1 = [] ∨ (chainedSkipEmpty oss inn).2 ≠ [] := by
  intro oss
  induction oss with
  | nil => intro inn; left; rfl
  | cons os oss ih =>
    intro inn
    match inn with
    | a :: inn2 => right; simp [chainedSkipEmpty]
    | [] =>
      match oss with
      | [] => left; rfl
      | ys :: rest =>
        rw [chainedSkipEmpty]
        exact ih ys

theorem chainedRun_eq {α : Type} :
    ∀ (fuel : Nat) (s : List (List α) × List α),
      (s.1 = [] ∨ s.2 ≠ []) → (chainedRest s).length ≤ fuel →
      chainedRun fuel s = (chainedRest s).map some := by
  intro fuel
  induction fuel with
  | zero =>
    intro s hs hlen
    have : chainedRest s = [] := List.length_eq_zero.mp (by omega)
    rw [chainedRun, this]
    rfl
  | succ f ih =>
    intro s hs hlen
    match s, hs with
    | ([], inn), _ =>
      rw [chainedRun]
      rfl
    | (os :: oss, inn), hs =>
      have hinn : inn ≠ [] := by
        rcases hs with h | h
        · exact absurd h (by simp)
        · exact h
      match inn, hinn with
      | a :: inn2, _ =>
        have hend : chainedIsAtEnd ((os :: oss, a :: inn2) : List (List α) × List α) = false := by
          simp [chainedIsAtEnd]
        rw [chainedRun, hend]
        simp only [Bool.false_eq_true, if_false]
        have hrest : chainedRest ((os :: oss, a :: inn2) : List (List α) × List α) =
            a :: (inn2 ++ oss.flatten) := by
          simp [chainedRest]
        have hinc : chainedInc ((os :: oss, a :: inn2) : List (List α) × List α) =
            chainedSkipEmpty (os :: oss) inn2 := by
          simp [chainedInc]
        have hrest2 : chainedRest (chainedSkipEmpty (os :: oss) inn2) = inn2 ++ oss.flatten := by
          rw [chainedSkipEmpty_rest]
          simp [chainedRest]
        rw [hinc, ih (chainedSkipEmpty (os :: oss) inn2)
          (chainedSkipEmpty_stable (os :: oss) inn2)
          (by rw [hrest2]; rw [hrest] at hlen; simpa using hlen), hrest, hrest2]
        simp [chainedDeref]

/-- Claim C5: for every nested collection, forward traversal of the chained
view yields exactly the elements of all inner collections, concatenated in
outer order, with every empty inner collection skipped transparently (the
skip loop in the constructor and in operator++ walks past arbitrarily long
runs of empty inner collections, including an entirely empty outer
collection). -/
theorem claim_C5 (α : Type) (xss : List (List α)) :
    chainedToList xss = xss.flatten.map some := by
  rw [chainedToList]
  match xss with
  | [] => rfl
  | ys :: rest =>
    have hbegin : chainedBegin (ys :: rest) = chainedSkipEmpty (ys :: rest) ys := rfl
    have hrest : chainedRest (chainedSkipEmpty (ys :: rest) ys) = (ys :: rest).flatten := by
      rw [chainedSkipEmpty_rest]
      simp [chainedRest]
    rw [hbegin, chainedRun_eq ((ys :: rest).flatten.length + 1)
      (chainedSkipEmpty (ys :: rest) ys) (chainedSkipEmpty_stable (ys :: rest) ys)
      (by rw [hrest]; omega), hrest]

/-- Claim C10: two Chain cursors compare equal exactly when both are at the end
of the outer collection or both are not; consequently any two non-end cursors
compare equal even when they dereference to different elements, so cursor
equality does not distinguish positions within the flattened sequence
(demonstrated on the concrete view over the nested collection containing the
two singleton collections of 1 and of 2). -/
theorem claim_C10 :
    (∀ (α : Type) (a b : List (List α) × List α),
      chainedEq a b = true ↔ chainedIsAtEnd a = chainedIsAtEnd b) ∧
    (∀ (α : Type) (a b : List (List α) × List α),
      chainedIsAtEnd a = false → chainedIsAtEnd b = false → chainedEq a b = true) ∧
    (chainedEq (chainedBegin [[1], [2]]) (chainedInc (chainedBegin [[1], [2]])) = true ∧
     chainedDeref (chainedBegin [[1], [2]]) = some 1 ∧
     chainedDeref (chainedInc (chainedBegin [[1], [2]])) = some 2 ∧
     chainedIsAtEnd (chainedBegin [[1], [2]]) = false ∧
     chainedIsAtEnd (chainedInc (chainedBegin [[1], [2]])) = false) := by
  refine ⟨?_, ?_, ?_⟩
  · intro α a b
    simp [chainedEq]
  · intro α a b ha hb
    simp [chainedEq, ha, hb]
  · refine ⟨by decide, by decide, by decide, by decide, by decide⟩

/-- Witness for claim C10: applied to two concrete non-end cursors over
different positions of a chained view. -/
theorem claim_C10_witness :
    chainedEq (([[3]], [3]) : List (List Nat) × List Nat) (([[4], [5]], [4, 5])) = true :=
  claim_C10.2.1 Nat ([[3]], [3]) ([[4], [5]], [4, 5]) (by decide) (by decide)

theorem filteredRun_skip {α : Type} (p : α → Bool) :
    ∀ (xs : List α) (fuel : Nat), xs.length < fuel →
      filteredRun p fuel (skipFilteredEntries p xs) = (xs.filter p).map some := by
  intro xs
  induction xs with
  | nil =>
    intro fuel hfuel
    match fuel, hfuel with
    | f + 1, _ => rfl
  | cons x rest ih =>
    intro fuel hfuel
    by_cases hx : p x
    · rw [skipFilteredEntries, if_neg (by simp [hx])]
      match fuel, hfuel with
      | f + 1, hfuel =>
        rw [filteredRun, ih f (by simpa using Nat.lt_of_succ_lt_succ hfuel)]
        simp [List.filter_cons, hx]
    · rw [skipFilteredEntries, if_pos (by simp [hx]), ih fuel (by simp at hfuel; omega)]
      simp [List.filter_cons, hx]

theorem skipFilteredEntries_all_false {α : Type} (p : α → Bool) :
    ∀ (xs : List α), (∀ x ∈ xs, p x = false) → skipFilteredEntries p xs = [] := by
  intro xs
  induction xs with
  | nil => intro h; rfl
  | cons x rest ih =>
    intro h
    rw [skipFilteredEntries, if_pos (by simp [h x (by simp)])]
    exact ih (fun y hy => h y (by simp [hy]))

theorem skipFilteredEntries_head {α : Type} (p : α → Bool) :
    ∀ (xs : List α) (y : α), (skipFilteredEntries p xs).head? = some y → p y = true := by
  intro xs
  induction xs with
  | nil => intro y h; exact absurd h (by simp [skipFilteredEntries])
  | cons x rest ih =>
    intro y h
    by_cases hx : p x
    · rw [skipFilteredEntries, if_neg (by simp [hx])] at h
      simp at h
      rw [← h]
      exact hx
    · rw [skipFilteredEntries, if_pos (by simp [hx])] at h
      exact ih y h

/-- Claim C6: for every collection and predicate, traversal of the filtered
view yields exactly the subsequence of elements satisfying the predicate, in
source order (runs of filtered-out elements of any length, anywhere, are
skipped); when no element satisfies the predicate the begin cursor is already
at the end sentinel (the empty remaining suffix); and dereferencing any
non-end cursor position the skip logic can produce yields an element
satisfying the predicate. -/
theorem claim_C6 (α : Type) (p : α → Bool) (xs : List α) :
    filteredToList p xs = (xs.filter p).map some ∧
    ((∀ x ∈ xs, p x = false) → filteredBegin p xs = []) ∧
    (∀ (ys : List α) (y : α), (skipFilteredEntries p ys).head? = some y → p y = true) := by
  refine ⟨?_, ?_, ?_⟩
  · rw [filteredToList, filteredBegin, filteredRun_skip p xs (xs.length + 1) (by omega)]
  · intro h
    exact skipFilteredEntries_all_false p xs h
  · intro ys y h
    exact skipFilteredEntries_head p ys y h

/-- Witness for claim C6: applied at a concrete collection and predicate that
rejects every element, the begin cursor coincides with the end sentinel. -/
theorem claim_C6_witness :
    filteredBegin (fun _ : Nat => false) [1, 2, 3] = [] :=
  (claim_C6 Nat (fun _ => false) [1, 2, 3]).2.1 (by decide)

theorem enumRun_items (delta : Int) :
    ∀ (inds : List Nat) (pos : Int) (old : EnumItem) (fuel : Nat), inds.length < fuel →
      enumRun delta fuel ⟨inds, pos, enumSetItem inds pos old⟩ = enumItemsFrom delta inds pos := by
  intro inds
  induction inds with
  | nil =>
    intro pos old fuel hfuel
    match fuel, hfuel with
    | f + 1, _ => rfl
  | cons i rest ih =>
    intro pos old fuel hfuel
    match fuel, hfuel with
    | f + 1, hfuel =>
      have hset : enumSetItem (i :: rest) pos old = ⟨pos, some i⟩ := rfl
      rw [hset, enumRun]
      have hinc : enumInc delta ⟨i :: rest, pos, ⟨pos, some i⟩⟩ =
          ⟨rest, pos + delta, enumSetItem rest (pos + delta) ⟨pos, some i⟩⟩ := rfl
      simp only [hinc]
      rw [ih (pos + delta) ⟨pos, some i⟩ f (by simpa using Nat.lt_of_succ_lt_succ hfuel),
        enumItemsFrom]

theorem enumItemsFrom_range' :
    ∀ (n a : Nat), enumItemsFrom 1 (List.range' a n) (a : Int) =
      (List.range' a n).map (fun (k : Nat) => (⟨(k : Int), some k⟩ : EnumItem)) := by
  intro n
  induction n with
  | zero => intro a; rfl
  | succ n ih =>
    intro a
    rw [List.range'_succ, enumItemsFrom, List.map_cons]
    have hcast : (a : Int) + 1 = ((a + 1 : Nat) : Int) := by push_cast; ring
    rw [hcast, ih (a + 1)]

theorem enumItemsFrom_rev_range :
    ∀ (n : Nat), enumItemsFrom (-1) (List.range n).reverse ((n : Int) - 1) =
      (List.range n).reverse.map (fun (k : Nat) => (⟨(k : Int), some k⟩ : EnumItem)) := by
  intro n
  induction n with
  | zero => rfl
  | succ n ih =>
    have hrev : (List.range (n + 1)).reverse = n :: (List.range n).reverse := by
      rw [List.range_succ]
      simp
    rw [hrev, enumItemsFrom, List.map_cons]
    have hpos : ((n + 1 : Nat) : Int) - 1 = (n : Int) := by push_cast; ring
    have hpos2 : ((n + 1 : Nat) : Int) - 1 + (-1) = (n : Int) - 1 := by push_cast; ring
    rw [hpos2, ih, hpos]

/-- Claim C7: forward traversal of the enumerated view yields items with
positions strictly increasing from 0 to size-1 (the k-th item has position k
and its Value() references storage slot k of the source), and reverse
traversal yields positions strictly decreasing from size-1 down to 0, each
item referencing the storage slot at its position in the original forward
order; reading through an item reads the source slot at its position, and
writing through an item mutates exactly that slot of the source. -/
theorem claim_C7 (α : Type) (xs : List α) :
    enumForwardItems xs = (List.range xs.length).map (fun (k : Nat) => (⟨(k : Int), some k⟩ : EnumItem)) ∧
    enumReverseItems xs = (List.range xs.length).reverse.map (fun (k : Nat) => (⟨(k : Int), some k⟩ : EnumItem)) ∧
    (∀ k : Nat, k < xs.length →
      enumReadThrough xs ((enumForwardItems xs).getD k ⟨0, none⟩) = xs.get? k) ∧
    (∀ (k : Nat) (v : α), k < xs.length →
      enumWriteThrough xs ((enumForwardItems xs).getD k ⟨0, none⟩) v = xs.set k v) := by
  have hfwd : enumForwardItems xs =
      (List.range xs.length).map (fun (k : Nat) => (⟨(k : Int), some k⟩ : EnumItem)) := by
    rw [enumForwardItems, enumMk,
      enumRun_items 1 (List.range xs.length) 0 ⟨0, none⟩ (xs.length + 1) (by simp),
      List.range_eq_range']
    have h0 : (0 : Int) = ((0 : Nat) : Int) := rfl
    rw [h0, enumItemsFrom_range' xs.length 0]
  have hitem : ∀ k : Nat, k < xs.length →
      (enumForwardItems xs).getD k ⟨0, none⟩ = ⟨(k : Int), some k⟩ := by
    intro k hk
    rw [hfwd, List.getD_eq_getElem?_getD, List.getElem?_map, List.getElem?_range hk]
    rfl
  refine ⟨hfwd, ?_, ?_, ?_⟩
  · rw [enumReverseItems, enumMk,
      enumRun_items (-1) (List.range xs.length).reverse ((xs.length : Int) - 1)
        ⟨0, none⟩ (xs.length + 1) (by simp),
      enumItemsFrom_rev_range xs.length]
  · intro k hk
    rw [hitem k hk]
    rfl
  · intro k v hk
    rw [hitem k hk]
    rfl

/-- Witness for claim C7: at a concrete collection, writing through the item at
position 1 of the forward enumeration mutates slot 1 of the source. -/
theorem claim_C7_witness :
    enumWriteThrough [10, 20, 30] ((enumForwardItems [10, 20, 30]).getD 1 ⟨0, none⟩) 99 =
      [10, 99, 30] :=
  Eq.trans ((claim_C7 Nat [10, 20, 30]).2.2.2 1 99 (by decide)) (by decide)

/-- Claim C8 (evaluated on the code): in iterators.h, dereferencing a Map
cursor yields the transform applied to the current element, returned by value
(a new value, never a reference into the source), and the single operator*
shared by the read-only and mutable cursor instantiations makes both access
paths return that identical computed value.  In iterator_utilities.h, however,
the read-only access path of the Map cursor is declared to return a const
reference (bound to the temporary computed by the transform), which differs
from the by-value mutable path. -/
theorem claim_C8_mapped :
    (∀ (α β : Type) (f : α → β) (xs : List α),
      mappedRun f xs = xs.map (fun x => some (f x))) ∧
    (∀ (α β : Type) (f : α → β) (x : α) (rest : List α),
      mappedDeref f (x :: rest) = some (f x)) ∧
    mappedIteratorAccess = AccessKind.byValue ∧
    utilitiesMappedMutableAccess = AccessKind.byValue ∧
    utilitiesMappedConstAccess ≠ utilitiesMappedMutableAccess := by
  refine ⟨?_, ?_, rfl, rfl, by decide⟩
  · intro α β f xs
    induction xs with
    | nil => rfl
    | cons x rest ih => rw [List.map_cons, mappedRun, ih]; rfl
  · intro α β f x rest
    rfl

/-- Witness for claim C8: the mapped traversal applied at a concrete collection
and transform. -/
theorem claim_C8_witness :
    mappedRun (fun n : Nat => n + 1) [1, 2] = [some 2, some 3] :=
  Eq.trans (claim_C8_mapped.1 Nat Nat (fun n => n + 1) [1, 2]) (by decide)

/-- Claim C3: the Reversed view exchanges the forward and backward traversal
orders of its source, so wrapping twice restores the source's behavior
exactly; in particular, for a standard container the forward traversal of the
reverse view is the reflected element order, and reversing twice restores the
original order. -/
theorem claim_C3 :
    (∀ (α : Type) (c : BidirColl α), Reversed (Reversed c) = c) ∧
    (∀ (α : Type) (c : BidirColl α),
      (Reversed c).fwdElems = c.bwdElems ∧ (Reversed c).bwdElems = c.fwdElems) ∧
    (∀ (α : Type) (xs : List α),
      (Reversed (stdColl xs)).fwdElems = xs.reverse ∧
      (Reversed (Reversed (stdColl xs))).fwdElems = xs) :=
  ⟨fun α c => rfl, fun α c => ⟨rfl, rfl⟩, fun α xs => ⟨rfl, rfl⟩⟩

/-- Claim C1: for every adaptor (Iterate, Enumerate, Map, Filter, AsReferences
in both its plain and unique-pointer variants, Join, Chain), the class chosen
by the constructor dispatch exposes rbegin/rend if and only if every wrapped
source collection exposes rbegin (for Join both collections, for Chain both
the outer and the inner collection type); support is detected structurally,
is_bidirectional_collection being exactly the has_rbegin presence test. -/
theorem claim_C1 :
    (∀ t : CppColl, (Enumerate t).hasRbegin = details.has_rbegin t) ∧
    (∀ t : CppColl, (Iterate t).hasRbegin = details.has_rbegin t) ∧
    (∀ t : CppColl, (Map t).hasRbegin = details.has_rbegin t) ∧
    (∀ t : CppColl, (Filter t).hasRbegin = details.has_rbegin t) ∧
    (∀ (t : CppColl) (u : Bool), (AsReferences t u).hasRbegin = details.has_rbegin t) ∧
    (∀ t1 t2 : CppColl,
      (Join t1 t2).hasRbegin = (details.has_rbegin t1 && details.has_rbegin t2)) ∧
    (∀ o i : CppColl,
      (Chain o i).hasRbegin = (details.has_rbegin o && details.has_rbegin i)) ∧
    (∀ t : CppColl, details.is_bidirectional_collection t = details.has_rbegin t) := by
  refine ⟨?_, ?_, ?_, ?_, ?_, ?_, ?_, ?_⟩
  · intro t
    rcases t with ⟨hr, cb, dc⟩
    cases hr <;> rfl
  · intro t
    rcases t with ⟨hr, cb, dc⟩
    cases hr <;> rfl
  · intro t
    rcases t with ⟨hr, cb, dc⟩
    cases hr <;> rfl
  · intro t
    rcases t with ⟨hr, cb, dc⟩
    cases hr <;> rfl
  · intro t u
    rcases t with ⟨hr, cb, dc⟩
    cases u <;> cases hr <;> rfl
  · intro t1 t2
    rcases t1 with ⟨hr1, cb1, dc1⟩
    rcases t2 with ⟨hr2, cb2, dc2⟩
    cases hr1 <;> cases hr2 <;> rfl
  · intro o i
    rcases o with ⟨hro, cbo, dco⟩
    rcases i with ⟨hri, cbi, dci⟩
    cases hro <;> cases hri <;> rfl
  · intro t
    rfl

/-- Counterexample to claim C2 as stated: for the AsReferences adaptor over a
non-const binding of a collection whose own mutable traversal yields read-only
values (for example a std::set of plain pointers, whose iterator dereferences
to a const pointer), the claim requires the view to be classified ReadOnly
(the spec formula is true), but the code classifies it Mutable: the selected
non-const ReferencedIterator returns the fixed type value_type&, exposing
mutable pointee access. -/
theorem claim_C2_counterexample :
    referencedReadOnly ⟨true, false, true⟩ = false ∧
    specReadOnlyView ⟨true, false, true⟩ = true := by
  constructor <;> rfl

/-- Claim C2 as amended: the two read-only signals (read-only binding OR the
source's own mutable traversal yielding read-only values) determine the
classification for Iterate, Enumerate and Filter, with Enumerate checking
both signals explicitly through is_const_collection; Join is ReadOnly iff
either source satisfies the two-signal formula (its non-const cursor is only
well-formed when the two element accesses agree in constness); but
AsReferences (plain and unique-pointer) classifies from the binding alone,
exposing mutable pointee access regardless of the second signal, Chain is
ReadOnly iff the outer binding is read-only or the inner collection's own
traversal is read-only (the outer element constness is cast away), and Map
hands out computed values rather than references. -/
theorem claim_C2_amended :
    (∀ t : CppColl, iteratedReadOnly t = specReadOnlyView t) ∧
    (∀ t : CppColl, enumeratedReadOnly t = specReadOnlyView t) ∧
    (∀ t : CppColl, filteredReadOnly t = specReadOnlyView t) ∧
    (∀ t1 t2 : CppColl, t1.iterDerefConst = t2.iterDerefConst →
      joinedReadOnly t1 t2 = (specReadOnlyView t1 || specReadOnlyView t2)) ∧
    (∀ t : CppColl, referencedReadOnly t = details.is_const_type t) ∧
    (∀ t : CppColl, referencedUniqueReadOnly t = details.is_const_type t) ∧
    (∀ o i : CppColl, chainedReadOnly o i = (details.is_const_type o || i.iterDerefConst)) ∧
    mappedIteratorAccess = AccessKind.byValue := by
  refine ⟨?_, ?_, ?_, ?_, ?_, ?_, ?_, rfl⟩
  · intro t
    rcases t with ⟨hr, cb, dc⟩
    cases cb <;> cases dc <;> rfl
  · intro t
    rcases t with ⟨hr, cb, dc⟩
    cases cb <;> cases dc <;> rfl
  · intro t
    rcases t with ⟨hr, cb, dc⟩
    cases cb <;> cases dc <;> rfl
  · intro t1 t2 h
    rcases t1 with ⟨hr1, cb1, dc1⟩
    rcases t2 with ⟨hr2, cb2, dc2⟩
    simp only [CppColl.mk.injEq] at h ⊢
    subst h
    cases cb1 <;> cases cb2 <;> cases dc1 <;> rfl
  · intro t
    rcases t with ⟨hr, cb, dc⟩
    cases cb <;> rfl
  · intro t
    rcases t with ⟨hr, cb, dc⟩
    cases cb <;> rfl
  · intro o i
    rcases o with ⟨hro, cbo, dco⟩
    cases cbo <;> rfl

/-- Witness for the amended claim C2: the Join conjunct applied at two concrete
collection descriptors with agreeing element access. -/
theorem claim_C2_amended_witness :
    joinedReadOnly ⟨true, true, false⟩ ⟨true, false, false⟩ =
      (specReadOnlyView ⟨true, true, false⟩ || specReadOnlyView ⟨true, false, false⟩) :=
  claim_C2_amended.2.2.2.1 ⟨true, true, false⟩ ⟨true, false, false⟩ rfl

end iterators
